import Mathlib

/-!
Verification of the path-aware transport layer (pan / shttp / ping /
web-forwarder) against its specification.  Data model and operations are
embedded shallowly: text is `List Char`, machine integers are `Nat`/`Int`
with explicit `% 2 ^ w` where a cast matters, time is `Int` nanoseconds,
fallible operations return `Option`/`Except`, and the reply channel of the
prober is a `List` of replies.
-/

/-! ## Generic association-list lookup (Go map indexing) -/

def lookupA {α β : Type} [DecidableEq α] (k : α) : List (α × β) → Option β
  | [] => none
  | (k2, v) :: rest => if k2 = k then some v else lookupA k rest

/-! ## Packet filter (pan)

`FilterPacket` itself is not among the given sources, only its benchmark
callers in `pkg/pan/raw_test.go`; it is modelled from the specification. -/

/-- Modelled from the spec: `FilterPacket` of the pan package (absent from the
sources, which only hold its benchmark callers).  It looks up the source
Domain Identifier of the packet in the ACL: an unset ACL accepts every
packet; a set ACL with an entry for the domain accepts exactly the
fingerprints listed there; a set ACL without an entry for the domain drops
the packet. -/
def FilterPacket (acl : Option (List (String × List String)))
    (srcIA : String) (fp : String) : Bool :=
  match acl with
  | none => true
  | some m =>
    match lookupA srcIA m with
    | some fps => decide (fp ∈ fps)
    | none => false

/-! ## ACL loading (web-forwarder/main.go, readACL)

`readACL` is in the sources.  The Go standard library pieces at its
boundary (file IO and `json.Unmarshal` into `map[string][]PathFingerprint`)
are modelled: the raw file is given as either an IO error or a parse
outcome, where `none` stands for syntactically invalid JSON and
`some v` for the parsed JSON document. -/

inductive JsonVal where
  | null
  | jbool (b : Bool)
  | num (n : Int)
  | str (s : String)
  | arr (xs : List JsonVal)
  | obj (kvs : List (String × JsonVal))

/-- Go `json.Unmarshal` of a JSON value into `[]PathFingerprint` (a slice of
string): an array of strings decodes element-wise, `null` decodes to the nil
slice, anything else is a type error. -/
def decodeFPList : JsonVal → Option (List String)
  | .null => some []
  | .arr xs => xs.mapM (fun v => match v with | .str s => some s | _ => none)
  | _ => none

/-- Go `json.Unmarshal` of a JSON value into `map[string][]PathFingerprint`:
an object decodes field-wise — every key is accepted — `null` leaves the map
empty, anything else is a type error. -/
def decodeACLMap : JsonVal → Option (List (String × List String))
  | .null => some []
  | .obj kvs => kvs.mapM (fun kv => (decodeFPList kv.2).map (fun l => (kv.1, l)))
  | _ => none

/-- Outcome of opening and reading the ACL file: an IO failure, or the file
content given as its JSON parse outcome (`none` = malformed JSON). -/
inductive FileRead where
  | ioError
  | content (json : Option JsonVal)

/-- Model of `readACL` of web-forwarder/main.go: an empty path yields no restriction
and no error; IO errors, malformed JSON and type errors are returned as
errors; otherwise the value of the "paths" key of the decoded map is
returned (`none` when the key is absent, matching the nil slice Go yields
for a missing map key). -/
def readACL (pathToFile : String) (file : FileRead) :
    Except String (Option (List String)) :=
  if pathToFile = "" then .ok none
  else
    match file with
    | .ioError => .error "io error"
    | .content none => .error "invalid character in JSON"
    | .content (some v) =>
      match decodeACLMap v with
      | none => .error "json: cannot unmarshal"
      | some m => .ok (lookupA "paths" m)

/-- Model of `main` of web-forwarder/main.go: when `readACL` fails it prints the error
and exits with code 2 before `forwardTLS` is reached; it serves only on
success. -/
def mainServes (r : Except String (Option (List String))) : Bool :=
  match r with
  | .error _ => false
  | .ok _ => true

/-! ## Echo prober (pkg/pan/internal/ping/ping.go)

The file is in the sources.  `snet` wire types are embedded as a tagged
union, the reply channel as a `List ReplyM`, times as `Int` nanoseconds.
Casting a `uint64` to `uint16` is `% 65536`. -/

/-- Model of `underlay.EndhostPort`, the well-known local endhost data port. -/
def endhostPort : Nat := 30041

structure NextHopM where
  ip : String
  port : Nat
  zone : String
deriving DecidableEq

/-- Model of `snet.SCMPEchoReply`: identifier and sequence number are `uint16`. -/
structure EchoReplyM where
  identifier : Nat
  seqNumber : Nat
  payload : List Nat
deriving DecidableEq

/-- The zero value of `snet.SCMPEchoReply`. -/
def zeroEchoReply : EchoReplyM := ⟨0, 0, []⟩

/-- The `snet.Packet` payload, a tagged union over the payload types the
handler inspects (`nil`, echo request and reply, the two link-state
notifications, and any other payload type, carried with its type name). -/
inductive PayloadM where
  | nilPayload
  | echoRequest (identifier seqNumber : Nat) (pld : List Nat)
  | echoReply (identifier seqNumber : Nat) (pld : List Nat)
  | extIfDown (ia intf : Nat)
  | intConnDown (ia ingress egress : Nat)
  | other (typeName : String)
deriving DecidableEq

/-- The fields of `snet.Packet` the prober reads or writes. -/
structure PacketM where
  sourceIA : Nat
  sourceHost : String
  destIA : Nat
  destHost : String
  path : List Nat
  payload : PayloadM
  bytesLen : Nat
deriving DecidableEq

/-- The errors produced in ping.go (`serrors.New` values and the two typed
link-state errors). -/
inductive PingErrM where
  | noV2Payload
  | extIfDownErr (ia intf : Nat) (path : List Nat)
  | intConnDownErr (ia ingress egress : Nat) (path : List Nat)
  | notEchoReply (typeName : String)
  | wrongId (expected actual : Nat)
  | noPathToRemote (localIA remoteIA : Nat)
deriving DecidableEq

/-- A `Reply` as delivered on the reply channel. -/
structure ReplyM where
  received : Int
  sourceIA : Nat
  sourceHost : String
  path : List Nat
  size : Nat
  reply : EchoReplyM
  error : Option PingErrM
deriving DecidableEq

/-- Model of `snet.UDPAddr` as used by `Send` and `pack`: ISD-AS, host IP, zone,
port, the raw forwarding path (empty list = empty path) and the optional
next hop. -/
structure UDPAddrM where
  ia : Nat
  ip : String
  zone : String
  port : Nat
  path : List Nat
  nextHop : Option NextHopM
deriving DecidableEq

/-- Model of `scmpHandler.handle`: classifies the packet payload.  A nil payload and
payload types other than the handled ones give an error; the two link-state
notifications give typed errors carrying the path; an echo reply whose
identifier differs from the handler identifier gives a wrong-ID error;
otherwise the echo reply itself is returned. -/
def scmpHandle (hid : Nat) (pkt : PacketM) : EchoReplyM × Option PingErrM :=
  match pkt.payload with
  | .nilPayload => (zeroEchoReply, some .noV2Payload)
  | .echoReply i s pld =>
    if i ≠ hid then (zeroEchoReply, some (.wrongId hid i))
    else (⟨i, s, pld⟩, none)
  | .extIfDown ia intf => (zeroEchoReply, some (.extIfDownErr ia intf pkt.path))
  | .intConnDown ia ing eg => (zeroEchoReply, some (.intConnDownErr ia ing eg pkt.path))
  | .echoRequest _ _ _ => (zeroEchoReply, some (.notEchoReply "snet.SCMPEchoRequest"))
  | .other t => (zeroEchoReply, some (.notEchoReply t))

/-- Model of `scmpHandler.Handle`: classifies the packet with `scmpHandle`, sends one
`Reply` (with the receive time, source, path, size, echo value and error) on
the reply channel, and returns `none` (Go `nil`).  The first component is
the channel after the send, the second the return value of `Handle`. -/
def scmpHandleFull (hid : Nat) (pkt : PacketM) (chan : List ReplyM) (now : Int) :
    List ReplyM × Option PingErrM :=
  let he := scmpHandle hid pkt
  (chan ++ [{ received := now, sourceIA := pkt.sourceIA,
              sourceHost := pkt.sourceHost, path := pkt.path,
              size := pkt.bytesLen, reply := he.1, error := he.2 }],
   none)

/-- The `Pinger` state built by `NewPinger`: the raw 64-bit random
identifier, the handler identifier `uint16(id)` installed in the SCMP
handler, the capacity of the reply channel, and the initial payload buffer
length. -/
structure PingerM where
  id : Nat
  handlerId : Nat
  repliesCap : Nat
  pldLen : Nat
deriving DecidableEq

/-- Model of `NewPinger`: draws a random 64-bit identifier (given here as the input
`randId`), installs `scmpHandler{id: uint16(id)}` and a reply channel
`make(chan Reply, 10)`, and keeps an 8-byte minimum payload buffer. -/
def NewPinger (randId : Nat) : PingerM :=
  { id := randId, handlerId := randId % 65536, repliesCap := 10, pldLen := 8 }

/-- Model of `binary.BigEndian.PutUint64`: the eight big-endian bytes of a value. -/
def putUint64BE (v : Nat) : List Nat :=
  [v / 72057594037927936 % 256,
   v / 281474976710656 % 256,
   v / 1099511627776 % 256,
   v / 4294967296 % 256,
   v / 16777216 % 256,
   v / 65536 % 256,
   v / 256 % 256,
   v % 256]

/-- Model of `binary.BigEndian.Uint64` of the first eight bytes.  Go panics on a
shorter slice; that case is outside every theorem below and is mapped
to 0. -/
def getUint64BE (l : List Nat) : Nat :=
  match l with
  | b0 :: b1 :: b2 :: b3 :: b4 :: b5 :: b6 :: b7 :: _ =>
    ((((((b0 * 256 + b1) * 256 + b2) * 256 + b3) * 256 + b4) * 256 + b5)
        * 256 + b6) * 256 + b7
  | _ => 0

/-- The payload written by `Send`: the send timestamp in the first eight
bytes, zero padding up to `max size 8` bytes. -/
def sendPayload (size : Nat) (now : Nat) : List Nat :=
  putUint64BE now ++ List.replicate (max size 8 - 8) 0

/-- Model of `pack`: refuses an empty path towards a different ISD-AS with a no-path
error, otherwise builds the packet with source, destination, path and the
echo request payload. -/
def pack (localAddr remote : UDPAddrM) (req : PayloadM) :
    Except PingErrM PacketM :=
  if remote.path = [] ∧ ¬ localAddr.ia = remote.ia then
    .error (.noPathToRemote localAddr.ia remote.ia)
  else
    .ok { sourceIA := localAddr.ia, sourceHost := localAddr.ip,
          destIA := remote.ia, destHost := remote.ip, path := remote.path,
          payload := req, bytesLen := 0 }

/-- Model of `Pinger.Send`: builds the timestamped payload, packs the echo request
with identifier `uint16(p.id)`, then determines the next hop — the given
`remote.NextHop` when set, else the remote host at the well-known endhost
port when the remote is in the local ISD-AS — and writes the packet.  The
result is what gets written: the packet and the next-hop address; an error
means no packet is written. -/
def pingerSend (p : PingerM) (localAddr remote : UDPAddrM)
    (sequence size : Nat) (now : Nat) :
    Except PingErrM (PacketM × Option NextHopM) :=
  let pld := sendPayload size now
  match pack localAddr remote (.echoRequest (p.id % 65536) sequence pld) with
  | .error e => .error e
  | .ok pkt =>
    let nextHop : Option NextHopM :=
      match remote.nextHop with
      | some nh => some nh
      | none =>
        if localAddr.ia = remote.ia then
          some { ip := remote.ip, port := endhostPort, zone := remote.zone }
        else none
    .ok (pkt, nextHop)

/-- The `int64(u)` cast of a `uint64` value. -/
def int64OfUint64 (n : Nat) : Int :=
  if n < 9223372036854775808 then (n : Int) else (n : Int) - 18446744073709551616

/-- Go `time.Duration.Round` (half away from zero, to a multiple of `m`),
including the saturation branches of the Go source. -/
def goDurationRound (d m : Int) : Int :=
  if m ≤ 0 then d
  else
    let r := Int.tmod d m
    if d < 0 then
      let r2 := -r
      if r2 + r2 < m then d + r2
      else
        let d1 := d - m + r2
        if d1 < d then d1 else -9223372036854775808
    else
      if r + r < m then d - r
      else
        let d1 := d + m - r
        if d1 > d then d1 else 9223372036854775807

/-- Model of `Reply.RTT`: the receive timestamp minus the timestamp embedded in the
reply payload, rounded to microsecond precision. -/
def replyRTT (r : ReplyM) : Int :=
  goDurationRound (r.received - int64OfUint64 (getUint64BE r.reply.payload)) 1000

/-! ## Address mangler (pkg/shttp + pkg/appnet)

`MangleSCIONAddrURL` and `UnmangleSCIONAddr` are not among the given
sources; only their tests in `pkg/shttp/transport_test.go` are.  They are
modelled from the specification, on `List Char`, with the test vectors of
the sources as the authority for the concrete behaviour. -/

/-- Split a character list at the first occurrence of `c`; `none` when `c`
does not occur. -/
def splitOnFirst (c : Char) : List Char → Option (List Char × List Char)
  | [] => none
  | x :: xs =>
    if x = c then some ([], xs)
    else
      match splitOnFirst c xs with
      | some (a, b) => some (x :: a, b)
      | none => none

/-- Go `net.SplitHostPort`, restricted to the shapes at hand: a bracketed
host `[h]:port` splits at the closing bracket, an unbracketed string splits
at the colon when it holds exactly one colon, and everything else (no
colon, several colons, missing port) is an error, rendered `none`. -/
def splitHostPort (s : List Char) : Option (List Char × List Char) :=
  match s with
  | [] => none
  | x :: rest =>
    if x = '[' then
      match splitOnFirst ']' rest with
      | some (inner, tail) =>
        match tail with
        | [] => none
        | y :: port => if y = ':' then some (inner, port) else none
      | none => none
    else
      if (x :: rest).count ':' = 1 then splitOnFirst ':' (x :: rest) else none

/-- Go `strings.Trim(s, "[]")` on the shapes at hand: strips one matching
pair of outer brackets, if present. -/
def trimBrackets (s : List Char) : List Char :=
  match s with
  | [] => []
  | x :: rest =>
    if x = '[' then
      match splitOnFirst ']' rest with
      | some (inner, tail) => if tail = [] then inner else x :: rest
      | none => x :: rest
    else x :: rest

/-- The canonical textual form of a host inside a structured address, as
`snet.UDPAddr.String` prints it: IPv6 hosts (holding a colon) are
bracketed, every other host is left bare. -/
def canonHost (h : List Char) : List Char :=
  if h.count ':' = 0 then h else '[' :: (h ++ [']'])

/-- Modelled from the spec: the host-level mangling of appnet
(`MangleSCIONAddr`, absent from the sources).  A host-port string whose
host matches the Structured Address grammar — a domain identifier, a comma
and a host, with an optional port — is rewritten to the bracketed form
`[domain,host]` with any port reattached outside the brackets; any other
string passes through unchanged.  The host text is carried verbatim, with
surrounding brackets of an IPv6 host removed, exactly as the test vectors
of the sources require. -/
def mangleHost (s : List Char) : List Char :=
  match splitOnFirst ',' s with
  | none => s
  | some (ia, hp) =>
    match splitHostPort hp with
    | some (h, p) => '[' :: (ia ++ ',' :: h ++ ']' :: ':' :: p)
    | none => '[' :: (ia ++ ',' :: trimBrackets hp ++ [']'])

/-- Modelled from the spec: `UnmangleSCIONAddr` of appnet (absent from the
sources).  It strips the bracket, restores the comma form and reattaches
the port if one was present; the host is emitted in the canonical form (an
IPv6 host bracketed), as the test vectors of the sources require.  A string
that is not of the mangled form is returned unchanged. -/
def unmangleHost (s : List Char) : List Char :=
  match splitHostPort s with
  | some (h, p) =>
    match splitOnFirst ',' h with
    | some (ia, host) => ia ++ ',' :: (canonHost host ++ ':' :: p)
    | none => s
  | none =>
    match s with
    | [] => s
    | x :: rest =>
      if x = '[' then
        match splitOnFirst ']' rest with
        | some (inner, tail) =>
          if tail = [] then
            match splitOnFirst ',' inner with
            | some (ia, host) => ia ++ ',' :: canonHost host
            | none => s
          else s
        | none => s
      else s

/-! ### The Structured Address text grammar -/

/-- Characters of a plain host name. -/
def nameCharOk (c : Char) : Bool :=
  c.isAlpha || c.isDigit || c = '-' || c = '.' || c = '_'

/-- Characters of the textual domain identifier (ISD-AS), such as
`1-ff00:0:110`: digits, hexadecimal letters, dash and colon. -/
def iaCharOk (c : Char) : Bool :=
  c.isDigit || c = '-' || c = ':' ||
    ('a' ≤ c && c ≤ 'f') || ('A' ≤ c && c ≤ 'F')

/-- Characters of an IPv4 text. -/
def v4CharOk (c : Char) : Bool := c.isDigit || c = '.'

/-- Characters of an IPv6 text (hexadecimal digits, colons, and dots for
v4-mapped forms). -/
def v6CharOk (c : Char) : Bool :=
  c.isDigit || c = ':' || c = '.' ||
    ('a' ≤ c && c ≤ 'f') || ('A' ≤ c && c ≤ 'F')

/-- The host part of a legal Structured Address text form: a bare host
name, or `domain,IPv4`, or `domain,IPv6` with or without brackets. -/
inductive HostForm where
  | plainHost (name : List Char)
  | scionV4 (ia ip : List Char)
  | scionV6 (ia ip : List Char) (brackets : Bool)

/-- A legal Structured Address text form: a host form plus an optional
port. -/
structure AddrForm where
  host : HostForm
  port : Option (List Char)

def renderHost : HostForm → List Char
  | .plainHost n => n
  | .scionV4 ia ip => ia ++ ',' :: ip
  | .scionV6 ia ip false => ia ++ ',' :: ip
  | .scionV6 ia ip true => ia ++ ',' :: '[' :: (ip ++ [']'])

def portSuffix : Option (List Char) → List Char
  | some p => ':' :: p
  | none => []

/-- The text of a legal Structured Address form. -/
def renderAddr (f : AddrForm) : List Char :=
  renderHost f.host ++ portSuffix f.port

def wfHost : HostForm → Bool
  | .plainHost n => !n.isEmpty && n.all nameCharOk
  | .scionV4 ia ip =>
    !ia.isEmpty && ia.all iaCharOk && !ip.isEmpty && ip.all v4CharOk
  | .scionV6 ia ip _ =>
    !ia.isEmpty && ia.all iaCharOk && ip.all v6CharOk &&
      decide (2 ≤ ip.count ':')

def wfPort : Option (List Char) → Bool
  | none => true
  | some p => !p.isEmpty && p.all Char.isDigit

/-- Well-formedness of a legal form: the characters of each component obey
the grammar, and an unbracketed IPv6 host carries no port (that combination
is ambiguous and not part of the grammar). -/
def wfAddr (f : AddrForm) : Bool :=
  wfHost f.host && wfPort f.port &&
    (match f.host with
     | .scionV6 _ _ false => f.port.isNone
     | _ => true)

/-- The canonical variant of a legal form: an unbracketed IPv6 host becomes
bracketed, everything else is unchanged. -/
def canonForm (f : AddrForm) : AddrForm :=
  match f.host with
  | .scionV6 ia ip false => { f with host := .scionV6 ia ip true }
  | _ => f

/-- The mangled text of a legal form: structured hosts become
`[domain,host]` with the port outside the brackets, plain hosts stay as
rendered. -/
def mangledAddr (f : AddrForm) : List Char :=
  match f.host with
  | .plainHost _ => renderAddr f
  | .scionV4 ia ip => '[' :: (ia ++ ',' :: ip ++ [']']) ++ portSuffix f.port
  | .scionV6 ia ip _ => '[' :: (ia ++ ',' :: ip ++ [']']) ++ portSuffix f.port

/-- Characters a URL parser accepts inside a host component. -/
def urlCharOk (c : Char) : Bool :=
  !(c == '/' || c == '?' || c == '#' || c == '@' || c == '[' ||
    c == ']' || c == ' ')

/-- Modelled from the spec: acceptance of a host component by a
standards-conformant URL parser — either a bracketed IP-literal style host,
optionally followed by a colon and a nonempty numeric port, or a plain host
free of separator characters with at most one colon, which must then
separate a nonempty numeric port. -/
def urlHostOk (s : List Char) : Bool :=
  match s with
  | [] => true
  | x :: rest =>
    if x = '[' then
      match splitOnFirst ']' rest with
      | some (inner, tail) =>
        inner.all urlCharOk &&
          (tail.isEmpty ||
            (tail.head? = some ':' && !(tail.drop 1).isEmpty &&
              (tail.drop 1).all Char.isDigit))
      | none => false
    else
      (x :: rest).all urlCharOk &&
        ((x :: rest).count ':' = 0 ||
          ((x :: rest).count ':' = 1 &&
            match splitOnFirst ':' (x :: rest) with
            | some (h, p) => !h.isEmpty && !p.isEmpty && p.all Char.isDigit
            | none => true))

/-! ## URL-level mangling (shttp.MangleSCIONAddrURL) and the dial pipeline

`MangleSCIONAddrURL`, the shttp round tripper and `ResolveUDPAddrAt` are
not among the given sources (only their tests are); they are modelled from
the specification. -/

/-- Word characters, as in the regular-expression class of word letters. -/
def isWordChar (c : Char) : Bool := c.isAlphanum || c = '_'

/-- Strip a leading colon-slash-slash. -/
def stripSchemeSep (r : List Char) : Option (List Char) :=
  match r with
  | a :: b :: c :: rest =>
    if a = ':' ∧ b = '/' ∧ c = '/' then some rest else none
  | _ => none

/-- Split off the scheme part `w://` (with `w` word characters) of a URL. -/
def splitScheme (s : List Char) : Option (List Char × List Char) :=
  match stripSchemeSep (s.drop (s.takeWhile isWordChar).length) with
  | some rest => some (s.takeWhile isWordChar ++ [':', '/', '/'], rest)
  | none => none

/-- Split off a user-info part `w@` (with `w` nonempty word characters). -/
def splitUserInfo (s : List Char) : Option (List Char × List Char) :=
  if (s.takeWhile isWordChar).isEmpty then none
  else
    match s.drop (s.takeWhile isWordChar).length with
    | [] => none
    | x :: rest =>
      if x = '@' then some (s.takeWhile isWordChar ++ ['@'], rest) else none

/-- A character that does not end the host component of a URL. -/
def sepFree (c : Char) : Bool := !(c == '/' || c == '?')

structure URLParts where
  scheme : List Char
  user : List Char
  host : List Char
  tail : List Char

/-- Modelled from the spec: the URL scanning of `MangleSCIONAddrURL`
(absent from the sources).  A URL is split into an optional scheme (word
characters and `://`), an optional user-info part (word characters and an
at sign), the host component (everything up to the first slash or question
mark) and the remaining tail. -/
def urlSplit (s : List Char) : URLParts :=
  let p1 := match splitScheme s with
            | some (a, b) => (a, b)
            | none => (([] : List Char), s)
  let p2 := match splitUserInfo p1.2 with
            | some (a, b) => (a, b)
            | none => (([] : List Char), p1.2)
  let host := p2.2.takeWhile sepFree
  ⟨p1.1, p2.1, host, p2.2.drop host.length⟩

/-- Modelled from the spec: `MangleSCIONAddrURL` (absent from the sources)
rewrites the host component of the URL with the host-level mangler and
leaves scheme, user-info and tail untouched. -/
def mangleURL (s : List Char) : List Char :=
  let u := urlSplit s
  u.scheme ++ u.user ++ mangleHost u.host ++ u.tail

/-- A URL of the shape the tests exercise: a scheme, an optional user-info
word, a Structured Address host form and a path-or-query tail. -/
structure URLForm where
  scheme : List Char
  user : Option (List Char)
  addr : AddrForm
  tail : List Char

def renderURL (u : URLForm) : List Char :=
  u.scheme ++ ':' :: '/' :: '/' ::
    ((match u.user with | some w => w ++ ['@'] | none => []) ++
      (renderAddr u.addr ++ u.tail))

def wfTail (t : List Char) : Bool :=
  match t with
  | [] => true
  | x :: _ => x == '/' || x == '?'

def wfURL (u : URLForm) : Bool :=
  u.scheme.all isWordChar &&
    (match u.user with
     | some w => !w.isEmpty && w.all isWordChar
     | none => true) &&
    wfAddr u.addr && wfTail u.tail

/-- Modelled from the spec: the dial address the HTTP transport hands to
its injected dial function — the host component of the mangled URL with the
default port 443 of the HTTPS scheme appended when no port is present. -/
def addDefaultPort (hp : List Char) : List Char :=
  match splitHostPort hp with
  | some _ => hp
  | none => hp ++ [':', '4', '4', '3']

/-- Modelled from the spec: `ResolveUDPAddrAt` (absent from the sources).
A string that parses as a Structured Address is used directly; otherwise
the host part is split from the port and looked up in the resolver table,
which maps a name to a domain identifier and a host address.  The result
is the canonical text of the resolved address (IPv6 hosts bracketed, the
port reattached); `none` is the host-not-found error. -/
def resolveAddr (table : List (List Char × (List Char × List Char)))
    (s : List Char) : Option (List Char) :=
  match splitOnFirst ',' s with
  | some (ia, hp) =>
    match splitHostPort hp with
    | some (h, p) => some (ia ++ ',' :: (canonHost h ++ ':' :: p))
    | none => some (ia ++ ',' :: (canonHost (trimBrackets hp) ++ ':' :: ['0']))
  | none =>
    match splitHostPort s with
    | some (h, p) =>
      match lookupA h table with
      | some (ia, ip) => some (ia ++ ',' :: (canonHost ip ++ ':' :: p))
      | none => none
    | none => none

/-- The full dial pipeline of the round tripper on the host component of a
URL: mangle the host, let the HTTP layer default the port, then unmangle
and resolve, as the injected test dial function of the sources does. -/
def dialedAddr (table : List (List Char × (List Char × List Char)))
    (url : List Char) : Option (List Char) :=
  resolveAddr table (unmangleHost (addDefaultPort (mangleHost (urlSplit url).host)))

/-! ## Helper lemmas on the splitting primitives -/

theorem splitOnFirst_of_not_mem (c : Char) (l : List Char) (h : c ∉ l) :
    splitOnFirst c l = none := by
  induction l with
  | nil => rfl
  | cons x xs ih =>
    simp only [List.mem_cons, not_or] at h
    simp [splitOnFirst, Ne.symm h.1, ih h.2]

theorem splitOnFirst_append (c : Char) (a b : List Char) (h : c ∉ a) :
    splitOnFirst c (a ++ c :: b) = some (a, b) := by
  induction a with
  | nil => simp [splitOnFirst]
  | cons x xs ih =>
    simp only [List.mem_cons, not_or] at h
    simp [splitOnFirst, Ne.symm h.1, ih h.2]

theorem not_mem_of_all {p : Char → Bool} {l : List Char} {c : Char}
    (h : l.all p = true) (hc : p c = false) : c ∉ l := by
  intro hm
  rw [List.all_eq_true] at h
  have := h c hm
  rw [hc] at this
  exact Bool.noConfusion this

theorem all_imp {p q : Char → Bool} (h : ∀ c, p c = true → q c = true)
    {l : List Char} (hl : l.all p = true) : l.all q = true := by
  rw [List.all_eq_true] at hl ⊢
  exact fun c hc => h c (hl c hc)

theorem count_eq_zero_of_all {p : Char → Bool} {l : List Char} {c : Char}
    (h : l.all p = true) (hc : p c = false) : l.count c = 0 :=
  List.count_eq_zero.mpr (not_mem_of_all h hc)

theorem takeWhile_append_stop {p : Char → Bool} (a : List Char) (c : Char)
    (b : List Char) (ha : a.all p = true) (hc : p c = false) :
    (a ++ c :: b).takeWhile p = a := by
  induction a with
  | nil => simp [List.takeWhile, hc]
  | cons x xs ih =>
    simp only [List.all_cons, Bool.and_eq_true] at ha
    simp [List.takeWhile, ha.1, ih ha.2]

theorem takeWhile_of_all {p : Char → Bool} (a : List Char)
    (ha : a.all p = true) : a.takeWhile p = a := by
  induction a with
  | nil => rfl
  | cons x xs ih =>
    simp only [List.all_cons, Bool.and_eq_true] at ha
    simp [List.takeWhile, ha.1, ih ha.2]

/-- The first character after the leading run of `p`-characters. -/
def afterRun (p : Char → Bool) (s : List Char) : Option Char :=
  (s.drop (s.takeWhile p).length).head?

theorem afterRun_cons {p : Char → Bool} (x : Char) (t : List Char)
    (hx : p x = true) : afterRun p (x :: t) = afterRun p t := by
  simp [afterRun, List.takeWhile, hx]

theorem afterRun_ne {p : Char → Bool} (c : Char) (a b : List Char)
    (ha : c ∉ a)
    (hb : b = [] ∨ ∃ x r, b = x :: r ∧ p x = false ∧ x ≠ c) :
    afterRun p (a ++ b) ≠ some c := by
  induction a with
  | nil =>
    rcases hb with rfl | ⟨x, r, rfl, hx, hxc⟩
    · simp [afterRun]
    · simp [afterRun, List.takeWhile, hx, hxc]
  | cons y ys ih =>
    simp only [List.mem_cons, not_or] at ha
    by_cases hy : p y = true
    · rw [List.cons_append, afterRun_cons y (ys ++ b) hy]
      exact ih ha.2
    · rw [Bool.not_eq_true] at hy
      simp [afterRun, List.takeWhile, hy, Ne.symm ha.1]

theorem splitHostPort_none_of_no_colon (s : List Char)
    (h1 : s.head? ≠ some '[') (h2 : s.count ':' = 0) :
    splitHostPort s = none := by
  cases s with
  | nil => rfl
  | cons x rest =>
    simp only [List.head?] at h1
    have hx : ¬ x = '[' := fun he => h1 (by rw [he])
    simp [splitHostPort, hx, h2]

theorem splitHostPort_none_many_colons (s : List Char)
    (h1 : s.head? ≠ some '[') (h2 : 2 ≤ s.count ':') :
    splitHostPort s = none := by
  cases s with
  | nil => rfl
  | cons x rest =>
    simp only [List.head?] at h1
    have hx : ¬ x = '[' := fun he => h1 (by rw [he])
    have : ¬ (x :: rest).count ':' = 1 := by omega
    simp [splitHostPort, hx, this]

theorem splitHostPort_one_colon (h p : List Char)
    (hh : (h ++ ':' :: p).head? ≠ some '[')
    (hch : h.count ':' = 0) (hcp : p.count ':' = 0) :
    splitHostPort (h ++ ':' :: p) = some (h, p) := by
  have hcount : (h ++ ':' :: p).count ':' = 1 := by
    rw [List.count_append, List.count_cons]
    simp [hch, hcp]
  have hsplit : splitOnFirst ':' (h ++ ':' :: p) = some (h, p) :=
    splitOnFirst_append ':' h p (List.count_eq_zero.mp hch)
  cases hhead : h ++ ':' :: p with
  | nil => exact absurd hhead (by simp)
  | cons x rest =>
    rw [hhead] at hh hcount hsplit
    simp only [List.head?] at hh
    have hx : ¬ x = '[' := fun he => hh (by rw [he])
    simp [splitHostPort, hx, hcount, hsplit]

theorem splitHostPort_bracket (inner tail : List Char) (hin : ']' ∉ inner) :
    splitHostPort ('[' :: (inner ++ ']' :: tail)) =
      match tail with
      | [] => none
      | y :: port => if y = ':' then some (inner, port) else none := by
  simp [splitHostPort, splitOnFirst_append ']' inner tail hin]

theorem trimBrackets_of_head_ne (s : List Char) (h : s.head? ≠ some '[') :
    trimBrackets s = s := by
  cases s with
  | nil => rfl
  | cons x rest =>
    simp only [List.head?] at h
    have hx : ¬ x = '[' := fun he => h (by rw [he])
    simp [trimBrackets, hx]

theorem trimBrackets_bracketed (inner : List Char) (hin : ']' ∉ inner) :
    trimBrackets ('[' :: (inner ++ [']'])) = inner := by
  have : splitOnFirst ']' (inner ++ ']' :: []) = some (inner, []) :=
    splitOnFirst_append ']' inner [] hin
  simp [trimBrackets, this]

theorem canonHost_no_colon (h : List Char) (hc : h.count ':' = 0) :
    canonHost h = h := by
  simp [canonHost, hc]

theorem canonHost_with_colon (h : List Char) (hc : h.count ':' ≠ 0) :
    canonHost h = '[' :: (h ++ [']']) := by
  simp [canonHost, hc]

/-! ## Character-class lemmas -/

theorem urlCharOk_false_cases {c : Char} (h : urlCharOk c = false) :
    c = '/' ∨ c = '?' ∨ c = '#' ∨ c = '@' ∨ c = '[' ∨ c = ']' ∨ c = ' ' := by
  unfold urlCharOk at h
  simp only [Bool.not_eq_false', Bool.or_eq_true, beq_iff_eq] at h
  tauto

theorem sepFree_false_cases {c : Char} (h : sepFree c = false) :
    c = '/' ∨ c = '?' := by
  unfold sepFree at h
  simp only [Bool.not_eq_false', Bool.or_eq_true, beq_iff_eq] at h
  exact h

theorem urlCharOk_of_class {c : Char}
    (h : nameCharOk c = true ∨ iaCharOk c = true ∨ v4CharOk c = true ∨
      v6CharOk c = true ∨ c.isDigit = true ∨ c = ',' ∨ c = ':') :
    urlCharOk c = true := by
  by_contra hx
  rw [Bool.not_eq_true] at hx
  rcases urlCharOk_false_cases hx with rfl | rfl | rfl | rfl | rfl | rfl | rfl <;>
    rcases h with h | h | h | h | h | h | h <;> exact absurd h (by decide)

theorem sepFree_of_class {c : Char}
    (h : nameCharOk c = true ∨ iaCharOk c = true ∨ v4CharOk c = true ∨
      v6CharOk c = true ∨ c.isDigit = true ∨ c = ',' ∨ c = ':' ∨
      c = '[' ∨ c = ']') :
    sepFree c = true := by
  by_contra hx
  rw [Bool.not_eq_true] at hx
  rcases sepFree_false_cases hx with rfl | rfl <;>
    rcases h with h | h | h | h | h | h | h | h | h <;> exact absurd h (by decide)

theorem at_not_mem_portSuffix {o : Option (List Char)} (h : wfPort o = true) :
    '@' ∉ portSuffix o := by
  cases o with
  | none => simp [portSuffix]
  | some p =>
    simp only [wfPort, Bool.and_eq_true] at h
    simp only [portSuffix, List.mem_cons, not_or]
    exact ⟨by decide, not_mem_of_all h.2 (by decide)⟩

theorem at_not_mem_renderHost {f : HostForm} (h : wfHost f = true) :
    '@' ∉ renderHost f := by
  cases f with
  | plainHost n =>
    simp only [wfHost, Bool.and_eq_true] at h
    exact not_mem_of_all h.2 (by decide)
  | scionV4 ia ip =>
    simp only [wfHost, Bool.and_eq_true] at h
    simp only [renderHost, List.mem_append, List.mem_cons, not_or]
    exact ⟨not_mem_of_all h.1.1.2 (by decide),
           by decide, not_mem_of_all h.2 (by decide)⟩
  | scionV6 ia ip br =>
    simp only [wfHost, Bool.and_eq_true] at h
    cases br with
    | false =>
      simp only [renderHost, List.mem_append, List.mem_cons, not_or]
      exact ⟨not_mem_of_all h.1.1.2 (by decide),
             by decide, not_mem_of_all h.1.2 (by decide)⟩
    | true =>
      have h1 := not_mem_of_all h.1.1.2 (by decide : iaCharOk '@' = false)
      have h2 := not_mem_of_all h.1.2 (by decide : v6CharOk '@' = false)
      intro hm
      rcases List.mem_append.mp hm with hm | hm
      · exact h1 hm
      · rcases List.mem_cons.mp hm with hm | hm
        · exact absurd hm (by decide)
        · rcases List.mem_cons.mp hm with hm | hm
          · exact absurd hm (by decide)
          · rcases List.mem_append.mp hm with hm | hm
            · exact h2 hm
            · exact absurd hm (by decide)

theorem at_not_mem_renderAddr {f : AddrForm} (h : wfAddr f = true) :
    '@' ∉ renderAddr f := by
  simp only [wfAddr, Bool.and_eq_true] at h
  intro hm
  rcases List.mem_append.mp hm with hm | hm
  · exact at_not_mem_renderHost h.1.1 hm
  · exact at_not_mem_portSuffix h.1.2 hm

theorem not_mem_append2 {c : Char} {a b : List Char} (h1 : c ∉ a)
    (h2 : c ∉ b) : c ∉ a ++ b :=
  fun hm => (List.mem_append.mp hm).elim h1 h2

theorem not_mem_cons2 {c x : Char} {l : List Char} (h1 : c ≠ x)
    (h2 : c ∉ l) : c ∉ x :: l :=
  fun hm => (List.mem_cons.mp hm).elim h1 h2

theorem head_ne_of_all {p : Char → Bool} {l : List Char} {c : Char}
    (h : l.all p = true) (hc : p c = false) : l.head? ≠ some c := by
  cases l with
  | nil => simp
  | cons x xs =>
    intro he
    simp only [List.head?, Option.some.injEq] at he
    subst he
    simp only [List.all_cons, Bool.and_eq_true] at h
    rw [hc] at h
    exact Bool.noConfusion h.1

/-! ## Mangling a legal Structured Address text form -/

theorem mangle_renderAddr (f : AddrForm) (h : wfAddr f = true) :
    mangleHost (renderAddr f) = mangledAddr f := by
  obtain ⟨host, port⟩ := f
  simp only [wfAddr, Bool.and_eq_true] at h
  obtain ⟨⟨hh, hp⟩, hmatch⟩ := h
  cases host with
  | plainHost n =>
    simp only [wfHost, Bool.and_eq_true] at hh
    have hcn : ',' ∉ n := not_mem_of_all hh.2 (by decide)
    have hcp : ',' ∉ portSuffix port := by
      cases port with
      | none => simp [portSuffix]
      | some p =>
        simp only [wfPort, Bool.and_eq_true] at hp
        exact not_mem_cons2 (by decide) (not_mem_of_all hp.2 (by decide))
    have : ',' ∉ renderAddr ⟨.plainHost n, port⟩ := by
      simp only [renderAddr, renderHost]
      exact not_mem_append2 hcn hcp
    simp [mangleHost, mangledAddr, splitOnFirst_of_not_mem ',' _ this]
  | scionV4 ia ip =>
    simp only [wfHost, Bool.and_eq_true] at hh
    obtain ⟨⟨⟨hiaE, hiaAll⟩, hipE⟩, hipAll⟩ := hh
    have hcia : ',' ∉ ia := not_mem_of_all hiaAll (by decide)
    cases ip with
    | nil => simp at hipE
    | cons x r =>
    have hxr : (x :: r).all v4CharOk = true := hipAll
    have hhead : ((x :: r) : List Char).head? ≠ some '[' :=
      head_ne_of_all hxr (by decide)
    have hcount : ((x :: r) : List Char).count ':' = 0 :=
      count_eq_zero_of_all hxr (by decide)
    cases port with
    | none =>
      have h1 : splitOnFirst ',' (ia ++ ',' :: (x :: r)) = some (ia, x :: r) :=
        splitOnFirst_append ',' ia (x :: r) hcia
      simp [renderAddr, renderHost, portSuffix, mangleHost, mangledAddr, h1,
        splitHostPort_none_of_no_colon _ hhead hcount,
        trimBrackets_of_head_ne _ hhead]
    | some p =>
      simp only [wfPort, Bool.and_eq_true] at hp
      have hcountp : p.count ':' = 0 :=
        count_eq_zero_of_all hp.2 (by decide)
      have hheadp : ((x :: r) ++ ':' :: p).head? ≠ some '[' := by
        intro he
        simp only [List.cons_append, List.head?, Option.some.injEq] at he
        subst he
        simp only [List.all_cons, Bool.and_eq_true] at hxr
        exact absurd hxr.1 (by decide)
      have h1 : splitOnFirst ',' (ia ++ ',' :: ((x :: r) ++ ':' :: p)) =
          some (ia, (x :: r) ++ ':' :: p) :=
        splitOnFirst_append ',' ia _ hcia
      have h2 : splitHostPort ((x :: r) ++ ':' :: p) = some (x :: r, p) :=
        splitHostPort_one_colon _ _ hheadp hcount hcountp
      simp only [List.cons_append] at h1 h2
      simp [renderAddr, renderHost, portSuffix, mangleHost, mangledAddr, h1, h2]
  | scionV6 ia ip br =>
    simp only [wfHost, Bool.and_eq_true] at hh
    obtain ⟨⟨⟨hiaE, hiaAll⟩, hipAll⟩, hcnt⟩ := hh
    have hcia : ',' ∉ ia := not_mem_of_all hiaAll (by decide)
    have hcnt2 : 2 ≤ ip.count ':' := of_decide_eq_true hcnt
    have hbr : ']' ∉ ip := not_mem_of_all hipAll (by decide)
    cases br with
    | false =>
      have hnone : port = none := by
        cases port with
        | none => rfl
        | some p => simp [Option.isNone] at hmatch
      subst hnone
      cases ip with
      | nil => simp at hcnt2
      | cons x r =>
      have hxr : (x :: r).all v6CharOk = true := hipAll
      have hhead : ((x :: r) : List Char).head? ≠ some '[' :=
        head_ne_of_all hxr (by decide)
      have h1 : splitOnFirst ',' (ia ++ ',' :: (x :: r)) = some (ia, x :: r) :=
        splitOnFirst_append ',' ia (x :: r) hcia
      simp [renderAddr, renderHost, portSuffix, mangleHost, mangledAddr, h1,
        splitHostPort_none_many_colons _ hhead hcnt2,
        trimBrackets_of_head_ne _ hhead]
    | true =>
      cases port with
      | none =>
        have h1 : splitOnFirst ','
            (ia ++ ',' :: ('[' :: (ip ++ [']']))) =
              some (ia, '[' :: (ip ++ [']'])) :=
          splitOnFirst_append ',' ia _ hcia
        have h2 : splitHostPort ('[' :: (ip ++ ']' :: ([] : List Char))) = none := by
          rw [splitHostPort_bracket ip [] hbr]
        simp [renderAddr, renderHost, portSuffix, mangleHost, mangledAddr, h1, h2,
          trimBrackets_bracketed ip hbr]
      | some p =>
        have h1 : splitOnFirst ','
            (ia ++ ',' :: ('[' :: (ip ++ ']' :: ':' :: p))) =
              some (ia, '[' :: (ip ++ ']' :: ':' :: p)) :=
          splitOnFirst_append ',' ia _ hcia
        have h2 : splitHostPort ('[' :: (ip ++ ']' :: ':' :: p)) =
            some (ip, p) := by
          rw [splitHostPort_bracket ip (':' :: p) hbr]
          simp
        simp [renderAddr, renderHost, portSuffix, mangleHost, mangledAddr, h1, h2]

/-! ## Unmangling the mangled form -/

theorem unmangle_plain (n : List Char) (port : Option (List Char))
    (hn1 : n ≠ []) (hn2 : n.all nameCharOk = true) (hp : wfPort port = true) :
    unmangleHost (renderAddr ⟨.plainHost n, port⟩) =
      renderAddr ⟨.plainHost n, port⟩ := by
  have hhead : n.head? ≠ some '[' := head_ne_of_all hn2 (by decide)
  have hcount : n.count ':' = 0 := count_eq_zero_of_all hn2 (by decide)
  have hcomma : ',' ∉ n := not_mem_of_all hn2 (by decide)
  cases port with
  | none =>
    have h1 : splitHostPort n = none :=
      splitHostPort_none_of_no_colon n hhead hcount
    cases n with
    | nil => exact absurd rfl hn1
    | cons x r =>
      have hx : ¬ x = '[' := by
        intro he
        exact hhead (by rw [he]; rfl)
      simp [renderAddr, renderHost, portSuffix, unmangleHost, h1, hx]
  | some p =>
    simp only [wfPort, Bool.and_eq_true] at hp
    have hcp : p.count ':' = 0 := count_eq_zero_of_all hp.2 (by decide)
    have hheadp : (n ++ ':' :: p).head? ≠ some '[' := by
      cases n with
      | nil => exact absurd rfl hn1
      | cons x r =>
        intro he
        simp only [List.cons_append, List.head?, Option.some.injEq] at he
        exact hhead (by rw [he]; rfl)
    have h1 : splitHostPort (n ++ ':' :: p) = some (n, p) :=
      splitHostPort_one_colon n p hheadp hcount hcp
    simp [renderAddr, renderHost, portSuffix, unmangleHost, h1,
      splitOnFirst_of_not_mem ',' n hcomma]

theorem unmangle_mangledAddr (f : AddrForm) (h : wfAddr f = true) :
    unmangleHost (mangledAddr f) = renderAddr (canonForm f) := by
  obtain ⟨host, port⟩ := f
  simp only [wfAddr, Bool.and_eq_true] at h
  obtain ⟨⟨hh, hp⟩, hmatch⟩ := h
  cases host with
  | plainHost n =>
    simp only [wfHost, Bool.and_eq_true] at hh
    have hn1 : n ≠ [] := by
      cases n with
      | nil => simp at hh
      | cons x r => exact List.cons_ne_nil x r
    have : mangledAddr ⟨.plainHost n, port⟩ = renderAddr ⟨.plainHost n, port⟩ := rfl
    rw [this, unmangle_plain n port hn1 hh.2 hp]
    rfl
  | scionV4 ia ip =>
    simp only [wfHost, Bool.and_eq_true] at hh
    obtain ⟨⟨⟨hiaE, hiaAll⟩, hipE⟩, hipAll⟩ := hh
    have hbr : ']' ∉ ia ++ ',' :: ip :=
      not_mem_append2 (not_mem_of_all hiaAll (by decide))
        (not_mem_cons2 (by decide) (not_mem_of_all hipAll (by decide)))
    have hcm : splitOnFirst ',' (ia ++ ',' :: ip) = some (ia, ip) :=
      splitOnFirst_append ',' ia ip (not_mem_of_all hiaAll (by decide))
    have hch : canonHost ip = ip :=
      canonHost_no_colon ip (count_eq_zero_of_all hipAll (by decide))
    cases port with
    | none =>
      have e1 : mangledAddr ⟨.scionV4 ia ip, none⟩ =
          '[' :: ((ia ++ ',' :: ip) ++ ']' :: []) := by
        simp [mangledAddr, portSuffix]
      have h1 : splitHostPort ('[' :: ((ia ++ ',' :: ip) ++ ']' :: [])) = none := by
        rw [splitHostPort_bracket _ _ hbr]
      have h2 : splitOnFirst ']' ((ia ++ ',' :: ip) ++ ']' :: []) =
          some (ia ++ ',' :: ip, []) :=
        splitOnFirst_append ']' _ _ hbr
      rw [e1]
      simp only [List.append_assoc, List.cons_append] at h1 h2
      simp [unmangleHost, h1, h2, hcm, hch, renderAddr, renderHost,
        portSuffix, canonForm]
    | some p =>
      have e1 : mangledAddr ⟨.scionV4 ia ip, some p⟩ =
          '[' :: ((ia ++ ',' :: ip) ++ ']' :: ':' :: p) := by
        simp [mangledAddr, portSuffix]
      have h1 : splitHostPort ('[' :: ((ia ++ ',' :: ip) ++ ']' :: ':' :: p)) =
          some (ia ++ ',' :: ip, p) := by
        rw [splitHostPort_bracket _ _ hbr]
        simp
      rw [e1]
      simp only [List.append_assoc, List.cons_append] at h1
      simp [unmangleHost, h1, hcm, hch, renderAddr, renderHost,
        portSuffix, canonForm]
  | scionV6 ia ip br =>
    simp only [wfHost, Bool.and_eq_true] at hh
    obtain ⟨⟨⟨hiaE, hiaAll⟩, hipAll⟩, hcnt⟩ := hh
    have hcnt2 : 2 ≤ ip.count ':' := of_decide_eq_true hcnt
    have hbr : ']' ∉ ia ++ ',' :: ip :=
      not_mem_append2 (not_mem_of_all hiaAll (by decide))
        (not_mem_cons2 (by decide) (not_mem_of_all hipAll (by decide)))
    have hcm : splitOnFirst ',' (ia ++ ',' :: ip) = some (ia, ip) :=
      splitOnFirst_append ',' ia ip (not_mem_of_all hiaAll (by decide))
    have hch : canonHost ip = '[' :: (ip ++ [']']) :=
      canonHost_with_colon ip (by omega)
    cases port with
    | none =>
      have e1 : mangledAddr ⟨.scionV6 ia ip br, none⟩ =
          '[' :: ((ia ++ ',' :: ip) ++ ']' :: []) := by
        simp [mangledAddr, portSuffix]
      have h1 : splitHostPort ('[' :: ((ia ++ ',' :: ip) ++ ']' :: [])) = none := by
        rw [splitHostPort_bracket _ _ hbr]
      have h2 : splitOnFirst ']' ((ia ++ ',' :: ip) ++ ']' :: []) =
          some (ia ++ ',' :: ip, []) :=
        splitOnFirst_append ']' _ _ hbr
      rw [e1]
      simp only [List.append_assoc, List.cons_append] at h1 h2
      cases br with
      | false =>
        simp [unmangleHost, h1, h2, hcm, hch, renderAddr, renderHost,
          portSuffix, canonForm]
      | true =>
        simp [unmangleHost, h1, h2, hcm, hch, renderAddr, renderHost,
          portSuffix, canonForm]
    | some p =>
      have e1 : mangledAddr ⟨.scionV6 ia ip br, some p⟩ =
          '[' :: ((ia ++ ',' :: ip) ++ ']' :: ':' :: p) := by
        simp [mangledAddr, portSuffix]
      have h1 : splitHostPort ('[' :: ((ia ++ ',' :: ip) ++ ']' :: ':' :: p)) =
          some (ia ++ ',' :: ip, p) := by
        rw [splitHostPort_bracket _ _ hbr]
        simp
      rw [e1]
      simp only [List.append_assoc, List.cons_append] at h1
      cases br with
      | false =>
        simp [unmangleHost, h1, hcm, hch, renderAddr, renderHost,
          portSuffix, canonForm]
      | true =>
        simp [unmangleHost, h1, hcm, hch, renderAddr, renderHost,
          portSuffix, canonForm]

/-! ## The mangled form is accepted by a URL parser -/

theorem urlHostOk_mangledAddr (f : AddrForm) (h : wfAddr f = true) :
    urlHostOk (mangledAddr f) = true := by
  obtain ⟨host, port⟩ := f
  simp only [wfAddr, Bool.and_eq_true] at h
  obtain ⟨⟨hh, hp⟩, hmatch⟩ := h
  cases host with
  | plainHost n =>
    simp only [wfHost, Bool.and_eq_true] at hh
    have hnU : n.all urlCharOk = true :=
      all_imp (fun c hc => urlCharOk_of_class (Or.inl hc)) hh.2
    have hcn : n.count ':' = 0 := count_eq_zero_of_all hh.2 (by decide)
    cases n with
    | nil => simp at hh
    | cons x r =>
    have hx : ¬ x = '[' := by
      have := head_ne_of_all hh.2 (by decide : nameCharOk '[' = false)
      intro he
      exact this (by rw [he]; rfl)
    cases port with
    | none =>
      simp [mangledAddr, renderAddr, renderHost, portSuffix, urlHostOk,
        hx, hnU, hcn]
    | some p =>
      simp only [wfPort, Bool.and_eq_true] at hp
      have hpU : p.all urlCharOk = true :=
        all_imp (fun c hc => urlCharOk_of_class (Or.inr (Or.inr (Or.inr
          (Or.inr (Or.inl hc)))))) hp.2
      have hcp : p.count ':' = 0 := count_eq_zero_of_all hp.2 (by decide)
      have hcount : ((x :: r) ++ ':' :: p).count ':' = 1 := by
        rw [List.count_append, hcn, List.count_cons, hcp]
        simp
      have hsp : splitOnFirst ':' ((x :: r) ++ ':' :: p) = some (x :: r, p) :=
        splitOnFirst_append ':' (x :: r) p (List.count_eq_zero.mp hcn)
      have h3 : (':' :: p).all urlCharOk = true := by
        rw [List.all_cons, hpU]
        decide
      have h4 : ((x :: r) ++ ':' :: p).all urlCharOk = true := by
        rw [List.all_append, hnU, h3]
        rfl
      have hcr : List.count ':' r = 0 ∧ ¬ x = ':' := by
        rw [List.count_cons] at hcn
        constructor
        · omega
        · intro he
          simp [he] at hcn
      simp only [List.cons_append] at hcount hsp h4
      simp [mangledAddr, renderAddr, renderHost, portSuffix, urlHostOk,
        hx, hcount, hsp, h4, hp.1, hp.2, hcr.1, hcr.2]
  | scionV4 ia ip =>
    simp only [wfHost, Bool.and_eq_true] at hh
    obtain ⟨⟨⟨hiaE, hiaAll⟩, hipE⟩, hipAll⟩ := hh
    have hiaU : ia.all urlCharOk = true :=
      all_imp (fun c hc => urlCharOk_of_class (Or.inr (Or.inl hc))) hiaAll
    have hipU : ip.all urlCharOk = true :=
      all_imp (fun c hc => urlCharOk_of_class (Or.inr (Or.inr (Or.inl hc)))) hipAll
    have hbr : ']' ∉ ia ++ ',' :: ip :=
      not_mem_append2 (not_mem_of_all hiaAll (by decide))
        (not_mem_cons2 (by decide) (not_mem_of_all hipAll (by decide)))
    have hsp : splitOnFirst ']' ((ia ++ ',' :: ip) ++ ']' :: portSuffix port) =
        some (ia ++ ',' :: ip, portSuffix port) :=
      splitOnFirst_append ']' _ _ hbr
    simp only [List.append_assoc, List.cons_append] at hsp
    cases port with
    | none =>
      simp [mangledAddr, portSuffix, urlHostOk, List.all_append,
        hiaU, hipU] at hsp ⊢
      simp [hsp, List.all_append, hiaU, hipU]
      all_goals decide
    | some p =>
      simp only [wfPort, Bool.and_eq_true] at hp
      simp only [portSuffix] at hsp
      simp [mangledAddr, portSuffix, urlHostOk, hsp, List.all_append,
        hiaU, hipU, hp.1, hp.2]
      all_goals decide
  | scionV6 ia ip br =>
    simp only [wfHost, Bool.and_eq_true] at hh
    obtain ⟨⟨⟨hiaE, hiaAll⟩, hipAll⟩, hcnt⟩ := hh
    have hiaU : ia.all urlCharOk = true :=
      all_imp (fun c hc => urlCharOk_of_class (Or.inr (Or.inl hc))) hiaAll
    have hipU : ip.all urlCharOk = true :=
      all_imp (fun c hc => urlCharOk_of_class (Or.inr (Or.inr (Or.inr
        (Or.inl hc))))) hipAll
    have hbr : ']' ∉ ia ++ ',' :: ip :=
      not_mem_append2 (not_mem_of_all hiaAll (by decide))
        (not_mem_cons2 (by decide) (not_mem_of_all hipAll (by decide)))
    have hsp : splitOnFirst ']' ((ia ++ ',' :: ip) ++ ']' :: portSuffix port) =
        some (ia ++ ',' :: ip, portSuffix port) :=
      splitOnFirst_append ']' _ _ hbr
    simp only [List.append_assoc, List.cons_append] at hsp
    cases port with
    | none =>
      simp [mangledAddr, portSuffix, urlHostOk, List.all_append,
        hiaU, hipU] at hsp ⊢
      simp [hsp, List.all_append, hiaU, hipU]
      all_goals decide
    | some p =>
      simp only [wfPort, Bool.and_eq_true] at hp
      simp only [portSuffix] at hsp
      simp [mangledAddr, portSuffix, urlHostOk, hsp, List.all_append,
        hiaU, hipU, hp.1, hp.2]
      all_goals decide

/-! ## Splitting a rendered URL -/

theorem splitScheme_append (sch rest : List Char)
    (hs : sch.all isWordChar = true) :
    splitScheme (sch ++ ':' :: '/' :: '/' :: rest) =
      some (sch ++ [':', '/', '/'], rest) := by
  have h1 : (sch ++ ':' :: '/' :: '/' :: rest).takeWhile isWordChar = sch :=
    takeWhile_append_stop sch ':' _ hs (by decide)
  unfold splitScheme
  rw [h1, List.drop_left]
  simp [stripSchemeSep]

theorem splitUserInfo_append (w rest : List Char) (hw1 : w ≠ [])
    (hw2 : w.all isWordChar = true) :
    splitUserInfo (w ++ '@' :: rest) = some (w ++ ['@'], rest) := by
  have h1 : (w ++ '@' :: rest).takeWhile isWordChar = w :=
    takeWhile_append_stop w '@' rest hw2 (by decide)
  have h2 : w.isEmpty = false := by
    cases w with
    | nil => exact absurd rfl hw1
    | cons a b => rfl
  unfold splitUserInfo
  rw [h1, List.drop_left, h2]
  simp

theorem splitUserInfo_none (s : List Char)
    (h : afterRun isWordChar s ≠ some '@') : splitUserInfo s = none := by
  unfold splitUserInfo
  by_cases he : (s.takeWhile isWordChar).isEmpty
  · simp [he]
  · simp only [he, if_false, Bool.false_eq_true]
    cases hd : s.drop (s.takeWhile isWordChar).length with
    | nil => simp [hd]
    | cons x rest =>
      have hx : ¬ x = '@' := by
        intro he2
        exact h (by simp [afterRun, hd, he2])
      simp [hd, hx]

theorem all_sepFree_portSuffix {o : Option (List Char)}
    (h : wfPort o = true) : (portSuffix o).all sepFree = true := by
  cases o with
  | none => rfl
  | some p =>
    simp only [wfPort, Bool.and_eq_true] at h
    have hp : p.all sepFree = true :=
      all_imp (fun c hc => sepFree_of_class
        (Or.inr (Or.inr (Or.inr (Or.inr (Or.inl hc)))))) h.2
    simp [portSuffix, List.all_cons, hp]
    decide

theorem all_sepFree_renderHost {f : HostForm} (h : wfHost f = true) :
    (renderHost f).all sepFree = true := by
  cases f with
  | plainHost n =>
    simp only [wfHost, Bool.and_eq_true] at h
    exact all_imp (fun c hc => sepFree_of_class (Or.inl hc)) h.2
  | scionV4 ia ip =>
    simp only [wfHost, Bool.and_eq_true] at h
    have h1 : ia.all sepFree = true :=
      all_imp (fun c hc => sepFree_of_class (Or.inr (Or.inl hc))) h.1.1.2
    have h2 : ip.all sepFree = true :=
      all_imp (fun c hc => sepFree_of_class (Or.inr (Or.inr (Or.inl hc)))) h.2
    simp [renderHost, List.all_append, List.all_cons, h1, h2]
    all_goals decide
  | scionV6 ia ip br =>
    simp only [wfHost, Bool.and_eq_true] at h
    have h1 : ia.all sepFree = true :=
      all_imp (fun c hc => sepFree_of_class (Or.inr (Or.inl hc))) h.1.1.2
    have h2 : ip.all sepFree = true :=
      all_imp (fun c hc => sepFree_of_class
        (Or.inr (Or.inr (Or.inr (Or.inl hc))))) h.1.2
    cases br with
    | false =>
      simp [renderHost, List.all_append, List.all_cons, h1, h2]
      all_goals decide
    | true =>
      simp [renderHost, List.all_append, List.all_cons, h1, h2]
      all_goals decide

theorem all_sepFree_renderAddr {f : AddrForm} (h : wfAddr f = true) :
    (renderAddr f).all sepFree = true := by
  simp only [wfAddr, Bool.and_eq_true] at h
  rw [renderAddr, List.all_append, all_sepFree_renderHost h.1.1,
    all_sepFree_portSuffix h.1.2]
  rfl

theorem urlSplit_render (u : URLForm) (h : wfURL u = true) :
    urlSplit (renderURL u) =
      ⟨u.scheme ++ [':', '/', '/'],
       (match u.user with | some w => w ++ ['@'] | none => []),
       renderAddr u.addr, u.tail⟩ := by
  obtain ⟨sch, user, addr, tail⟩ := u
  simp only [wfURL, Bool.and_eq_true] at h
  obtain ⟨⟨⟨hsch, huser⟩, haddr⟩, htail⟩ := h
  have hsep : (renderAddr addr).all sepFree = true := all_sepFree_renderAddr haddr
  have htf : tail = [] ∨ ∃ c t2, tail = c :: t2 ∧ sepFree c = false ∧
      isWordChar c = false ∧ c ≠ '@' := by
    cases tail with
    | nil => exact Or.inl rfl
    | cons c t2 =>
      simp only [wfTail, Bool.or_eq_true, beq_iff_eq] at htail
      rcases htail with rfl | rfl
      · exact Or.inr ⟨'/', t2, rfl, by decide, by decide, by decide⟩
      · exact Or.inr ⟨'?', t2, rfl, by decide, by decide, by decide⟩
  have hhost : (renderAddr addr ++ tail).takeWhile sepFree = renderAddr addr ∧
      (renderAddr addr ++ tail).drop (renderAddr addr).length = tail := by
    rcases htf with rfl | ⟨c, t2, rfl, hc, _, _⟩
    · rw [List.append_nil]
      exact ⟨takeWhile_of_all _ hsep, List.drop_length _⟩
    · exact ⟨takeWhile_append_stop _ c t2 hsep hc, List.drop_left _ _⟩
  cases user with
  | none =>
    have hnone : splitUserInfo (renderAddr addr ++ tail) = none := by
      apply splitUserInfo_none
      apply afterRun_ne '@' (renderAddr addr) tail (at_not_mem_renderAddr haddr)
      rcases htf with rfl | ⟨c, t2, rfl, _, hw, ha⟩
      · exact Or.inl rfl
      · exact Or.inr ⟨c, t2, rfl, hw, ha⟩
    have hs := splitScheme_append sch (renderAddr addr ++ tail) hsch
    simp [urlSplit, renderURL, hs, hnone, hhost.1, hhost.2]
  | some w =>
    simp only [Bool.and_eq_true] at huser
    have hw1 : w ≠ [] := by
      cases w with
      | nil => simp at huser
      | cons a b => exact List.cons_ne_nil a b
    have hu := splitUserInfo_append w (renderAddr addr ++ tail) hw1 huser.2
    have hs := splitScheme_append sch
      (w ++ '@' :: (renderAddr addr ++ tail)) hsch
    have e1 : renderURL ⟨sch, some w, addr, tail⟩ =
        sch ++ ':' :: '/' :: '/' :: (w ++ '@' :: (renderAddr addr ++ tail)) := by
      simp [renderURL]
    rw [e1]
    simp [urlSplit, hs, hu, hhost.1, hhost.2]

/-! ## Byte-level round trip of the embedded timestamp -/

theorem getUint64BE_putUint64BE (v : Nat) (rest : List Nat)
    (h : v < 18446744073709551616) :
    getUint64BE (putUint64BE v ++ rest) = v := by
  simp only [putUint64BE, getUint64BE, List.cons_append, List.nil_append]
  omega

/-! ## Claim theorems -/

/-- Claim C2: `FilterPacket`, given the source Domain Identifier of a packet
and the fingerprint of the path it used, accepts everything when the ACL is
unset; with a set ACL and an entry for the domain it accepts exactly when
the fingerprint is a member of the entry; with a set ACL and no entry for
the domain it drops the packet (default deny). -/
theorem filterPacket_spec (m : List (String × List String)) (src fp : String)
    (fps : List String) :
    FilterPacket none src fp = true ∧
    (lookupA src m = some fps →
      (FilterPacket (some m) src fp = true ↔ fp ∈ fps)) ∧
    (lookupA src m = none → FilterPacket (some m) src fp = false) := by
  refine ⟨rfl, ?_, ?_⟩
  · intro hl
    simp [FilterPacket, hl]
  · intro hl
    simp [FilterPacket, hl]

/-- Witness for C2: the ACL of the specification example — a packet of the
listed domain passes with a listed fingerprint, an unknown fingerprint is
dropped, an unlisted domain is dropped, and without an ACL everything
passes. -/
theorem filterPacket_spec_witness :
    FilterPacket none "1-ff00:0:112" "fp3" = true ∧
    (FilterPacket (some [("1-ff00:0:110", ["fp1", "fp2"])])
        "1-ff00:0:110" "fp1" = true ↔ ("fp1" : String) ∈ ["fp1", "fp2"]) ∧
    (FilterPacket (some [("1-ff00:0:110", ["fp1", "fp2"])])
        "1-ff00:0:110" "fp3" = true ↔ ("fp3" : String) ∈ ["fp1", "fp2"]) ∧
    FilterPacket (some [("1-ff00:0:110", ["fp1", "fp2"])])
        "1-ff00:0:112" "fp1" = false :=
  ⟨(filterPacket_spec [] "1-ff00:0:112" "fp3" []).1,
   (filterPacket_spec [("1-ff00:0:110", ["fp1", "fp2"])] "1-ff00:0:110" "fp1"
      ["fp1", "fp2"]).2.1 rfl,
   (filterPacket_spec [("1-ff00:0:110", ["fp1", "fp2"])] "1-ff00:0:110" "fp3"
      ["fp1", "fp2"]).2.1 rfl,
   (filterPacket_spec [("1-ff00:0:110", ["fp1", "fp2"])] "1-ff00:0:112" "fp1"
      ["fp1", "fp2"]).2.2 rfl⟩

/-- Counterexample for C3: a reply whose identifier differs from the
identifier of the handler IS delivered on the reply channel — as a `Reply`
with the error field set — rather than being kept off the channel and
reported to the rate-limited error hook (which only handles read errors of
`Drain`). -/
theorem wrong_id_delivered_on_channel :
    (scmpHandleFull 7 ⟨2, "h", 1, "d", [], .echoReply 5 0 [], 100⟩ [] 0).1 =
      [{ received := 0, sourceIA := 2, sourceHost := "h", path := [],
         size := 100, reply := zeroEchoReply, error := some (.wrongId 7 5) }] ∧
    (scmpHandleFull 7 ⟨2, "h", 1, "d", [], .echoReply 5 0 [], 100⟩ [] 0).1 ≠
      [] := by
  exact ⟨rfl, by decide⟩

/-- Claim C3 (amended): an inbound echo reply carrying an identifier
different from the identifier of this Pinger is never delivered as a
successful echo reply: `handle` classifies it as a wrong-ID error with a
zero echo value, and `Handle` delivers it on the reply channel as a failed
`Reply` (the rate-limited error hook of `Drain` is not involved), returning
`nil` so the loop continues.  Hence one Pinger never delivers the replies
of another as successful echo replies. -/
theorem wrong_id_reply_filtered (hid i s : Nat) (pl : List Nat)
    (pkt : PacketM) (chan : List ReplyM) (now : Int)
    (hpl : pkt.payload = .echoReply i s pl) (hne : i ≠ hid) :
    scmpHandle hid pkt = (zeroEchoReply, some (.wrongId hid i)) ∧
    (scmpHandleFull hid pkt chan now).1 =
      chan ++ [{ received := now, sourceIA := pkt.sourceIA,
                 sourceHost := pkt.sourceHost, path := pkt.path,
                 size := pkt.bytesLen, reply := zeroEchoReply,
                 error := some (.wrongId hid i) }] ∧
    (scmpHandleFull hid pkt chan now).2 = none := by
  have h1 : scmpHandle hid pkt = (zeroEchoReply, some (.wrongId hid i)) := by
    simp [scmpHandle, hpl, hne]
  exact ⟨h1, by simp [scmpHandleFull, h1], rfl⟩

/-- Witness for C3 (amended), at the concrete mismatched packet of the
counterexample. -/
theorem wrong_id_reply_filtered_witness :
    scmpHandle 7 ⟨2, "h", 1, "d", [], .echoReply 5 0 [], 100⟩ =
      (zeroEchoReply, some (.wrongId 7 5)) ∧
    (scmpHandleFull 7 ⟨2, "h", 1, "d", [], .echoReply 5 0 [], 100⟩ [] 0).1 =
      [] ++ [{ received := 0, sourceIA := 2, sourceHost := "h", path := [],
               size := 100, reply := zeroEchoReply,
               error := some (.wrongId 7 5) }] ∧
    (scmpHandleFull 7 ⟨2, "h", 1, "d", [], .echoReply 5 0 [], 100⟩ [] 0).2 =
      none :=
  wrong_id_reply_filtered 7 5 0 [] _ [] 0 rfl (by decide)

/-- Counterexample for C4: a JSON document holding only an unknown field is
accepted by `readACL` with no error — it yields a nil ACL (no restriction)
and the process proceeds to serve — rather than failing hard at load
time. -/
theorem readACL_unknown_field_accepted :
    readACL "acl.json"
        (.content (some (.obj [("unknown", .arr [.str "fp1"])]))) =
      .ok none ∧
    mainServes (readACL "acl.json"
        (.content (some (.obj [("unknown", .arr [.str "fp1"])])))) = true := by
  exact ⟨rfl, rfl⟩

/-- Claim C4 (amended): for an empty/absent source `readACL` returns a nil
ACL and no error; an IO failure, malformed JSON, or JSON that cannot be
unmarshalled into the fingerprint map is a load-time error and the process
exits before serving; but unknown fields do NOT fail — every object key is
accepted, only the "paths" key is consulted, and its absence yields a nil
ACL. -/
theorem readACL_load_behavior (p : String) (f : FileRead) (v : JsonVal)
    (m : List (String × List String)) (hp : p ≠ "") :
    readACL "" f = .ok none ∧
    readACL p .ioError = .error "io error" ∧
    readACL p (.content none) = .error "invalid character in JSON" ∧
    mainServes (readACL p (.content none)) = false ∧
    (decodeACLMap v = none →
      mainServes (readACL p (.content (some v))) = false) ∧
    (decodeACLMap v = some m →
      readACL p (.content (some v)) = .ok (lookupA "paths" m)) := by
  refine ⟨rfl, ?_, ?_, ?_, ?_, ?_⟩
  · simp [readACL, hp]
  · simp [readACL, hp]
  · simp [readACL, mainServes, hp]
  · intro hv
    simp [readACL, mainServes, hp, hv]
  · intro hv
    simp [readACL, hp, hv]

/-- Witness for C4 (amended) at concrete inputs: empty path, a syntax
error, a type error (a number in place of the map) and a well-formed
document. -/
theorem readACL_load_behavior_witness :
    readACL "" .ioError = .ok none ∧
    readACL "acl.json" (.content none) = .error "invalid character in JSON" ∧
    mainServes (readACL "acl.json" (.content (some (.num 3)))) = false ∧
    readACL "acl.json"
        (.content (some (.obj [("paths", .arr [.str "fp1"])]))) =
      .ok (some ["fp1"]) :=
  ⟨(readACL_load_behavior "acl.json" .ioError (.num 3) [] (by decide)).1,
   (readACL_load_behavior "acl.json" .ioError (.num 3) [] (by decide)).2.2.1,
   (readACL_load_behavior "acl.json" .ioError (.num 3) [] (by decide)).2.2.2.2.1
     rfl,
   (readACL_load_behavior "acl.json" .ioError
     (.obj [("paths", .arr [.str "fp1"])]) [("paths", ["fp1"])]
     (by decide)).2.2.2.2.2 rfl⟩

/-- Counterexample for C7: with an empty remote path and the remote in the
same domain, but an explicitly set next hop, `Send` writes to the given
next hop — not to the remote host at the well-known endhost port as the
claim states. -/
theorem send_uses_given_nexthop :
    pingerSend (NewPinger 0) ⟨1, "10.0.0.1", "", 0, [], none⟩
        ⟨1, "10.0.0.2", "", 0, [], some ⟨"10.0.0.9", 5000, ""⟩⟩ 0 0 0 =
      .ok (⟨1, "10.0.0.1", 1, "10.0.0.2", [],
            .echoRequest 0 0 [0, 0, 0, 0, 0, 0, 0, 0], 0⟩,
           some ⟨"10.0.0.9", 5000, ""⟩) ∧
    (⟨"10.0.0.9", 5000, ""⟩ : NextHopM) ≠
      ⟨"10.0.0.2", endhostPort, ""⟩ := by
  exact ⟨rfl, by decide⟩

/-- Claim C7 (amended): when the remote path is empty, the remote is in the
local domain and no explicit next hop is set, `Send` falls back to the
remote host at the well-known endhost port; when the remote path is empty
and the remote is in a different domain, `Send` fails with a no-path error
and no packet is written. -/
theorem send_empty_path_behavior (p : PingerM) (localAddr remote : UDPAddrM)
    (seq size now : Nat) (h1 : remote.path = []) :
    (remote.nextHop = none → localAddr.ia = remote.ia →
      pingerSend p localAddr remote seq size now =
        .ok ({ sourceIA := localAddr.ia, sourceHost := localAddr.ip,
               destIA := remote.ia, destHost := remote.ip,
               path := remote.path,
               payload := .echoRequest (p.id % 65536) seq
                 (sendPayload size now),
               bytesLen := 0 },
             some { ip := remote.ip, port := endhostPort,
                    zone := remote.zone })) ∧
    (¬ localAddr.ia = remote.ia →
      pingerSend p localAddr remote seq size now =
        .error (.noPathToRemote localAddr.ia remote.ia)) := by
  constructor
  · intro h2 h3
    simp [pingerSend, pack, h1, h2, h3]
  · intro h3
    simp [pingerSend, pack, h1, h3]

/-- Witness for C7 (amended): a same-domain send without a next hop falls
back to the endhost port, and a cross-domain send with an empty path
fails. -/
theorem send_empty_path_behavior_witness :
    pingerSend (NewPinger 0) ⟨1, "a", "", 0, [], none⟩
        ⟨1, "b", "z", 0, [], none⟩ 0 0 0 =
      .ok ({ sourceIA := 1, sourceHost := "a", destIA := 1, destHost := "b",
             path := [],
             payload := .echoRequest ((NewPinger 0).id % 65536) 0
               (sendPayload 0 0),
             bytesLen := 0 },
           some { ip := "b", port := endhostPort, zone := "z" }) ∧
    pingerSend (NewPinger 0) ⟨1, "a", "", 0, [], none⟩
        ⟨2, "b", "z", 0, [], none⟩ 0 0 0 =
      .error (.noPathToRemote 1 2) :=
  ⟨(send_empty_path_behavior (NewPinger 0) ⟨1, "a", "", 0, [], none⟩
      ⟨1, "b", "z", 0, [], none⟩ 0 0 0 rfl).1 rfl rfl,
   (send_empty_path_behavior (NewPinger 0) ⟨1, "a", "", 0, [], none⟩
      ⟨2, "b", "z", 0, [], none⟩ 0 0 0 rfl).2 (by decide)⟩

/-- Claim C8: for a reply whose payload embeds the send timestamp `t0` and
whose receive time is `t0 + d`, `RTT` returns the receive timestamp minus
the embedded timestamp, rounded to microsecond precision — that is, `d`
rounded to the microsecond. -/
theorem rtt_of_embedded_timestamp (t0 : Nat) (d : Int) (r : ReplyM)
    (rest : List Nat) (h0 : t0 < 9223372036854775808)
    (hp : r.reply.payload = putUint64BE t0 ++ rest)
    (hr : r.received = (t0 : Int) + d) :
    replyRTT r = goDurationRound d 1000 := by
  have h1 : getUint64BE (putUint64BE t0 ++ rest) = t0 :=
    getUint64BE_putUint64BE t0 rest (by omega)
  have h2 : int64OfUint64 t0 = (t0 : Int) := by
    simp [int64OfUint64, h0]
  rw [replyRTT, hp, h1, h2, hr]
  have h3 : (t0 : Int) + d - (t0 : Int) = d := by ring
  rw [h3]

/-- Witness for C8 at `t0` one second, `d` 2.5 microseconds; the rounded
value is 3 microseconds (half rounds away from zero) on both sides. -/
theorem rtt_of_embedded_timestamp_witness :
    replyRTT { received := 1000002500, sourceIA := 1, sourceHost := "h",
               path := [], size := 8,
               reply := ⟨0, 0, putUint64BE 1000000000⟩, error := none } =
      goDurationRound 2500 1000 ∧
    goDurationRound 2500 1000 = 3000 :=
  ⟨rtt_of_embedded_timestamp 1000000000 2500 _ [] (by norm_num)
     (by simp) (by norm_num),
   by decide⟩

/-- Claim C9: for every inbound packet the SCMP handler sends exactly one
`Reply` on the reply channel — whatever the classification — appended
unconditionally to the channel (never dropped, whatever the channel
holds), `Handle` always returns `nil`, and the reply channel of a new
Pinger has capacity exactly 10. -/
theorem handle_one_reply_per_packet (hid : Nat) (pkt : PacketM)
    (chan : List ReplyM) (now : Int) (randId : Nat) :
    (scmpHandleFull hid pkt chan now).1 =
      chan ++ [{ received := now, sourceIA := pkt.sourceIA,
                 sourceHost := pkt.sourceHost, path := pkt.path,
                 size := pkt.bytesLen, reply := (scmpHandle hid pkt).1,
                 error := (scmpHandle hid pkt).2 }] ∧
    (scmpHandleFull hid pkt chan now).1.length = chan.length + 1 ∧
    (scmpHandleFull hid pkt chan now).2 = none ∧
    (NewPinger randId).repliesCap = 10 := by
  refine ⟨rfl, ?_, rfl, rfl⟩
  simp [scmpHandleFull]

/-- Claim C10: the probe identifier is drawn as a 64-bit value but only its
low 16 bits are used — every sent probe embeds `uint16(id)`, which is
exactly the identifier the reply handler matches, and two Pingers whose
64-bit identifiers differ by a multiple of 2^16 are indistinguishable. -/
theorem probe_identifier_low_16_bits (randId : Nat)
    (localAddr remote : UDPAddrM) (seq size now : Nat) (pkt : PacketM)
    (nh : Option NextHopM)
    (hsend : pingerSend (NewPinger randId) localAddr remote seq size now =
      .ok (pkt, nh)) :
    pkt.payload = .echoRequest ((NewPinger randId).handlerId) seq
      (sendPayload size now) ∧
    (NewPinger randId).handlerId = randId % 65536 ∧
    (NewPinger 65536).id ≠ (NewPinger 0).id ∧
    (NewPinger 65536).handlerId = (NewPinger 0).handlerId := by
  refine ⟨?_, rfl, by decide, by decide⟩
  by_cases hcond : remote.path = [] ∧ ¬ localAddr.ia = remote.ia
  · simp [pingerSend, pack, hcond] at hsend
  · simp [pingerSend, pack, hcond] at hsend
    rw [← hsend.1]
    rfl

/-- Witness for C10 at a concrete 64-bit identifier 70000 (whose low 16
bits are 4464) and a successful concrete send. -/
theorem probe_identifier_low_16_bits_witness :
    (⟨1, "a", 1, "b", [], .echoRequest ((NewPinger 70000).handlerId) 3
        (sendPayload 0 5), 0⟩ : PacketM).payload =
      .echoRequest ((NewPinger 70000).handlerId) 3 (sendPayload 0 5) ∧
    (NewPinger 70000).handlerId = 70000 % 65536 ∧
    (NewPinger 65536).id ≠ (NewPinger 0).id ∧
    (NewPinger 65536).handlerId = (NewPinger 0).handlerId :=
  probe_identifier_low_16_bits 70000 ⟨1, "a", "", 0, [], none⟩
    ⟨1, "b", "", 0, [], none⟩ 3 0 5
    ⟨1, "a", 1, "b", [], .echoRequest ((NewPinger 70000).handlerId) 3
      (sendPayload 0 5), 0⟩
    (some ⟨"b", endhostPort, ""⟩) rfl

/-- Counterexample for C1: `1-ff00:0:110,::1` and `1-ff00:0:110,[::1]` are
two distinct legal Structured Address text forms that mangle to the same
string (as the test vectors of the sources show), so no unmangling can
restore both; concretely, unmangling the mangled unbracketed IPv6 form
returns the canonical bracketed form, not the input. -/
theorem mangle_round_trip_fails_on_unbracketed_v6 :
    mangleHost ("1-ff00:0:110,::1".data) =
      mangleHost ("1-ff00:0:110,[::1]".data) ∧
    "1-ff00:0:110,::1".data ≠ "1-ff00:0:110,[::1]".data ∧
    wfAddr ⟨.scionV6 "1-ff00:0:110".data "::1".data false, none⟩ = true ∧
    renderAddr ⟨.scionV6 "1-ff00:0:110".data "::1".data false, none⟩ =
      "1-ff00:0:110,::1".data ∧
    unmangleHost (mangleHost ("1-ff00:0:110,::1".data)) ≠
      "1-ff00:0:110,::1".data ∧
    unmangleHost (mangleHost ("1-ff00:0:110,::1".data)) =
      "1-ff00:0:110,[::1]".data := by
  refine ⟨?_, ?_, ?_, ?_, ?_, ?_⟩ <;> decide

/-- Claim C1 (amended): for every legal Structured Address text form, the
mangled form is accepted by a URL parser, and unmangling it returns the
canonical variant of the form — which is the input itself for every legal
form except `domain,IPv6` written without brackets, where the bracketed
equivalent `domain,[IPv6]` is returned. -/
theorem mangle_round_trip (f : AddrForm) (h : wfAddr f = true) :
    unmangleHost (mangleHost (renderAddr f)) = renderAddr (canonForm f) ∧
    urlHostOk (mangleHost (renderAddr f)) = true := by
  rw [mangle_renderAddr f h]
  exact ⟨unmangle_mangledAddr f h, urlHostOk_mangledAddr f h⟩

/-- Witness for C1 (amended): the bracketed IPv6 form with a port — a fixed
point of the round trip — evaluated concretely. -/
theorem mangle_round_trip_witness :
    wfAddr ⟨.scionV6 "1-ff00:0:110".data "::1".data true,
      some "80".data⟩ = true ∧
    unmangleHost (mangleHost (renderAddr
        ⟨.scionV6 "1-ff00:0:110".data "::1".data true, some "80".data⟩)) =
      renderAddr (canonForm
        ⟨.scionV6 "1-ff00:0:110".data "::1".data true, some "80".data⟩) ∧
    urlHostOk (mangleHost (renderAddr
        ⟨.scionV6 "1-ff00:0:110".data "::1".data true, some "80".data⟩)) =
      true :=
  ⟨by decide,
   (mangle_round_trip _ (by decide)).1,
   (mangle_round_trip _ (by decide)).2⟩

/-- Claim C6: on a URL whose host component matches the Structured Address
grammar, URL-level mangling rewrites exactly the host to the bracketed form
`[domain,host]` — keeping any port outside the brackets — and leaves the
scheme, user-info, path and query untouched; on a URL whose host does not
match the grammar the URL is returned unchanged. -/
theorem mangleURL_rewrites_host (u : URLForm) (h : wfURL u = true) :
    mangleURL (renderURL u) =
      u.scheme ++ ':' :: '/' :: '/' ::
        ((match u.user with | some w => w ++ ['@'] | none => []) ++
          (mangledAddr u.addr ++ u.tail)) ∧
    (∀ n, u.addr.host = .plainHost n →
      mangleURL (renderURL u) = renderURL u) := by
  have hw : wfAddr u.addr = true := by
    simp only [wfURL, Bool.and_eq_true] at h
    exact h.1.2
  have h1 := urlSplit_render u h
  have h2 : mangleURL (renderURL u) =
      u.scheme ++ ':' :: '/' :: '/' ::
        ((match u.user with | some w => w ++ ['@'] | none => []) ++
          (mangledAddr u.addr ++ u.tail)) := by
    rw [mangleURL, h1]
    simp only [mangle_renderAddr u.addr hw]
    simp [List.append_assoc]
  refine ⟨h2, ?_⟩
  intro n hn
  rw [h2]
  have h3 : mangledAddr u.addr = renderAddr u.addr := by
    simp [mangledAddr, hn]
  rw [h3, renderURL]

/-- Witness for C6: a URL with user-info, a bracketed IPv6 structured host
with port, and a path-and-query tail; plus the no-op case on a plain
host-with-port URL. -/
theorem mangleURL_rewrites_host_witness :
    mangleURL (renderURL ⟨"https".data, some "user".data,
        ⟨.scionV6 "1-ff00:0:110".data "::1".data true, some "80".data⟩,
        "/hello?boo=bla".data⟩) =
      "https".data ++ ':' :: '/' :: '/' ::
        (("user".data ++ ['@']) ++
          (mangledAddr ⟨.scionV6 "1-ff00:0:110".data "::1".data true,
              some "80".data⟩ ++ "/hello?boo=bla".data)) ∧
    mangleURL (renderURL ⟨"https".data, none,
        ⟨.plainHost "foo".data, some "80".data⟩, "/hello".data⟩) =
      renderURL ⟨"https".data, none,
        ⟨.plainHost "foo".data, some "80".data⟩, "/hello".data⟩ :=
  ⟨(mangleURL_rewrites_host ⟨"https".data, some "user".data,
      ⟨.scionV6 "1-ff00:0:110".data "::1".data true, some "80".data⟩,
      "/hello?boo=bla".data⟩ (by decide)).1,
   (mangleURL_rewrites_host ⟨"https".data, none,
      ⟨.plainHost "foo".data, some "80".data⟩, "/hello".data⟩
      (by decide)).2 "foo".data rfl⟩

/-- Claim C5: the address handed to the injected dial function — the host
component of the mangled URL with the default port 443 of the scheme added
when absent — unmangles and resolves to the resolved structured address
with the explicit port of the URL, or 443 when none was given: with
resolver table `host -> X,Y`, the URL `https://host` yields `X,Y:443` and
`https://host:80` yields `X,Y:80`; a literal `domain,ip` URL yields
`domain,ip:443`. -/
theorem dial_resolves_addresses (X Y D ip4 : List Char)
    (hX1 : X ≠ []) (hX2 : X.all iaCharOk = true)
    (hY1 : Y ≠ []) (hY2 : Y.all v4CharOk = true)
    (hD1 : D ≠ []) (hD2 : D.all iaCharOk = true)
    (hip1 : ip4 ≠ []) (hip2 : ip4.all v4CharOk = true) :
    dialedAddr [("host".data, (X, Y))] ("https://host".data) =
      some (X ++ ',' :: (Y ++ ':' :: "443".data)) ∧
    dialedAddr [("host".data, (X, Y))] ("https://host:80".data) =
      some (X ++ ',' :: (Y ++ ':' :: "80".data)) ∧
    dialedAddr [("host".data, (X, Y))]
        ("https://".data ++ (D ++ ',' :: ip4)) =
      some (D ++ ',' :: (ip4 ++ ':' :: "443".data)) := by
  have e5 : canonHost Y = Y :=
    canonHost_no_colon Y (count_eq_zero_of_all hY2 (by decide))
  refine ⟨?_, ?_, ?_⟩
  · have e1 : unmangleHost (addDefaultPort (mangleHost
        (urlSplit ("https://host".data)).host)) = "host:443".data := by
      decide
    have e2 : splitOnFirst ',' ("host:443".data) = none := by decide
    have e3 : splitHostPort ("host:443".data) =
        some ("host".data, "443".data) := by decide
    simp [dialedAddr, e1, resolveAddr, e2, e3, e5, lookupA]
  · have e1 : unmangleHost (addDefaultPort (mangleHost
        (urlSplit ("https://host:80".data)).host)) = "host:80".data := by
      decide
    have e2 : splitOnFirst ',' ("host:80".data) = none := by decide
    have e3 : splitHostPort ("host:80".data) =
        some ("host".data, "80".data) := by decide
    simp [dialedAddr, e1, resolveAddr, e2, e3, e5, lookupA]
  · have hDne : D.isEmpty = false := by
      cases D with
      | nil => exact absurd rfl hD1
      | cons a b => rfl
    have hipne : ip4.isEmpty = false := by
      cases ip4 with
      | nil => exact absurd rfl hip1
      | cons a b => rfl
    have hwf : wfAddr ⟨.scionV4 D ip4, none⟩ = true := by
      simp [wfAddr, wfHost, wfPort, hD2, hip2, hDne, hipne]
    have hwf443 : wfAddr ⟨.scionV4 D ip4, some "443".data⟩ = true := by
      simp [wfAddr, wfHost, wfPort, hD2, hip2, hDne, hipne]
      all_goals decide
    have hu : wfURL ⟨"https".data, none, ⟨.scionV4 D ip4, none⟩, []⟩ =
        true := by
      simp [wfURL, wfTail, hwf]
      all_goals decide
    have h1 := urlSplit_render
      ⟨"https".data, none, ⟨.scionV4 D ip4, none⟩, []⟩ hu
    have e0 : renderURL ⟨"https".data, none, ⟨.scionV4 D ip4, none⟩, []⟩ =
        "https://".data ++ (D ++ ',' :: ip4) := by
      have e00 : ("https://".data : List Char) =
          "https".data ++ [':', '/', '/'] := by decide
      simp [renderURL, renderAddr, renderHost, portSuffix, e00]
    rw [← e0]
    have e443 : ("443".data : List Char) = ['4', '4', '3'] := by decide
    have hbr : ']' ∉ D ++ ',' :: ip4 :=
      not_mem_append2 (not_mem_of_all hD2 (by decide))
        (not_mem_cons2 (by decide) (not_mem_of_all hip2 (by decide)))
    have e6 : addDefaultPort (mangledAddr ⟨.scionV4 D ip4, none⟩) =
        mangledAddr ⟨.scionV4 D ip4, some "443".data⟩ := by
      have h2 : splitHostPort ('[' :: ((D ++ ',' :: ip4) ++ ']' :: [])) =
          none := by
        rw [splitHostPort_bracket _ _ hbr]
      simp only [List.append_assoc, List.cons_append] at h2
      simp [addDefaultPort, mangledAddr, portSuffix, h2, e443]
    have e7 : renderAddr (canonForm ⟨.scionV4 D ip4, some "443".data⟩) =
        D ++ ',' :: (ip4 ++ ':' :: "443".data) := by
      simp [canonForm, renderAddr, renderHost, portSuffix]
    have e8 : splitOnFirst ',' (D ++ ',' :: (ip4 ++ ':' :: "443".data)) =
        some (D, ip4 ++ ':' :: "443".data) :=
      splitOnFirst_append ',' D _ (not_mem_of_all hD2 (by decide))
    have e9 : splitHostPort (ip4 ++ ':' :: "443".data) =
        some (ip4, "443".data) := by
      apply splitHostPort_one_colon
      · cases ip4 with
        | nil => exact absurd rfl hip1
        | cons a b =>
          intro he
          simp only [List.cons_append, List.head?, Option.some.injEq] at he
          subst he
          simp only [List.all_cons, Bool.and_eq_true] at hip2
          exact absurd hip2.1 (by decide)
      · exact count_eq_zero_of_all hip2 (by decide)
      · decide
    have e10 : canonHost ip4 = ip4 :=
      canonHost_no_colon ip4 (count_eq_zero_of_all hip2 (by decide))
    simp [dialedAddr, h1, mangle_renderAddr _ hwf, e6,
      unmangle_mangledAddr _ hwf443, e7, resolveAddr, e8, e9, e10]

/-- Witness for C5 at the concrete resolver table and addresses of the
sources. -/
theorem dial_resolves_addresses_witness :
    dialedAddr [("host".data, ("1-ff00:0:1".data, "192.0.2.1".data))]
        ("https://host".data) =
      some ("1-ff00:0:1".data ++ ',' :: ("192.0.2.1".data ++ ':' ::
        "443".data)) ∧
    dialedAddr [("host".data, ("1-ff00:0:1".data, "192.0.2.1".data))]
        ("https://host:80".data) =
      some ("1-ff00:0:1".data ++ ',' :: ("192.0.2.1".data ++ ':' ::
        "80".data)) ∧
    dialedAddr [("host".data, ("1-ff00:0:1".data, "192.0.2.1".data))]
        ("https://".data ++ ("1-ff00:0:110".data ++ ',' ::
          "127.0.0.1".data)) =
      some ("1-ff00:0:110".data ++ ',' :: ("127.0.0.1".data ++ ':' ::
        "443".data)) :=
  dial_resolves_addresses "1-ff00:0:1".data "192.0.2.1".data
    "1-ff00:0:110".data "127.0.0.1".data (by decide) (by decide)
    (by decide) (by decide) (by decide) (by decide) (by decide) (by decide)
